import Mathlib

/-!
Verification development for the plant-disease detection platform
(PLANT-CLOUD-DOWN).  The core under study is the multi-model inference
serving and routing engine (fusion strategies, distillation-aware routing,
result ranking) together with the TypeScript front-end client code
(prediction API wrapper, detection page handler, shared API client).

Score vectors are modelled over `ℚ` so that all fusion arithmetic is exact
and decidable.
-/

namespace PlantCloud

/-- A probability-like score vector indexed by class id. -/
abbrev RawScores := List ℚ

/-- Element-wise sum of two score vectors. -/
def vecAdd (a b : RawScores) : RawScores := List.zipWith (· + ·) a b

/-- Scale every entry of a score vector by `c`. -/
def vecScale (c : ℚ) (v : RawScores) : RawScores := v.map (fun x => c * x)

/-- Modelled from the spec: the Fusion Engine's `average` strategy
(`fuse` in §4.3; the model-service implementation itself is not in the
repository snapshot, only its documentation `final_prob = mean([...])`):
element-wise mean across all member score vectors. -/
def fuseAverage (scores : List RawScores) : RawScores :=
  match scores with
  | [] => []
  | v :: vs => vecScale (1 / ((v :: vs).length : ℚ)) (vs.foldl vecAdd v)

/-- Element-wise weighted sum of member score vectors with per-member
weights. -/
def weightedSum (ws : List ℚ) (scores : List RawScores) : RawScores :=
  match List.zipWith vecScale ws scores with
  | [] => []
  | v :: vs => vs.foldl vecAdd v

/-- Modelled from the spec: the Fusion Engine's `weighted` strategy
(§4.3; documented as `final_prob = sum(weight[i] * model[i]_prob)`):
weights are normalized to sum 1 before use, and omitted weights behave
as `average`. -/
def fuseWeighted (scores : List RawScores) (weights : Option (List ℚ)) : RawScores :=
  match weights with
  | none => fuseAverage scores
  | some w => weightedSum (w.map (fun x => x / w.sum)) scores

lemma sum_map_mul_left (c : ℚ) (w : List ℚ) :
    (w.map (fun x => c * x)).sum = c * w.sum := by
  induction w with
  | nil => simp
  | cons x xs ih => simp [ih, mul_add]

lemma vecScale_one (v : RawScores) : vecScale 1 v = v := by
  simp [vecScale]

lemma vecScale_vecScale (a b : ℚ) (v : RawScores) :
    vecScale a (vecScale b v) = vecScale (a * b) v := by
  simp [vecScale, List.map_map, Function.comp, mul_assoc]

lemma vecAdd_vecScale_self (c : ℚ) (v : RawScores) :
    vecAdd (vecScale c v) v = vecScale (c + 1) v := by
  induction v with
  | nil => rfl
  | cons x xs ih =>
      simp only [vecAdd, vecScale, List.map_cons, List.zipWith_cons_cons] at *
      refine congrArg₂ _ (by ring) ih

lemma foldl_vecAdd_replicate (v : RawScores) (m : Nat) (c : ℚ) :
    (List.replicate m v).foldl vecAdd (vecScale c v) = vecScale (c + m) v := by
  induction m generalizing c with
  | zero => simp
  | succ k ih =>
      rw [List.replicate_succ, List.foldl_cons, vecAdd_vecScale_self, ih]
      congr 1
      push_cast
      ring

/-- C3: `average` is the element-wise mean, so fusing `n ≥ 2` copies of
the same score vector yields that same vector. -/
theorem fuseAverage_idempotent (v : RawScores) (n : Nat) (hn : 2 ≤ n) :
    fuseAverage (List.replicate n v) = v := by
  obtain ⟨m, rfl⟩ : ∃ m, n = m + 1 := ⟨n - 1, by omega⟩
  rw [List.replicate_succ]
  show vecScale (1 / ((v :: List.replicate m v).length : ℚ))
      ((List.replicate m v).foldl vecAdd v) = v
  have h1 : (List.replicate m v).foldl vecAdd v = vecScale (1 + m) v := by
    have h := foldl_vecAdd_replicate v m 1
    rwa [vecScale_one] at h
  have hlen : ((v :: List.replicate m v).length : ℚ) = (m : ℚ) + 1 := by
    simp [List.length_replicate]
  rw [h1, hlen, vecScale_vecScale]
  have hm : ((m : ℚ) + 1) ≠ 0 := by positivity
  have : 1 / ((m : ℚ) + 1) * (1 + (m : ℚ)) = 1 := by
    rw [add_comm 1 (m : ℚ)]
    field_simp
  rw [this, vecScale_one]

/-- Witness for C3 at a concrete input. -/
theorem fuseAverage_idempotent_witness :
    fuseAverage (List.replicate 3 [(1 : ℚ)/2, 1/3, 1/6]) = [(1 : ℚ)/2, 1/3, 1/6] :=
  fuseAverage_idempotent [(1 : ℚ)/2, 1/3, 1/6] 3 (by norm_num)

/-- C2: weights are normalized to sum 1 before use, so scaling all weights
by a positive constant leaves the `weighted` fusion result unchanged, and
omitted weights behave exactly as `average`. -/
theorem fuseWeighted_scale_invariant (scores : List RawScores) (w : List ℚ)
    (c : ℚ) (hc : 0 < c) :
    fuseWeighted scores (some (w.map (fun x => c * x))) =
      fuseWeighted scores (some w) ∧
    fuseWeighted scores none = fuseAverage scores := by
  refine ⟨?_, rfl⟩
  show weightedSum ((w.map (fun x => c * x)).map
      (fun x => x / (w.map (fun y => c * y)).sum)) scores =
    weightedSum (w.map (fun x => x / w.sum)) scores
  have hc' : c ≠ 0 := ne_of_gt hc
  have hmaps : (w.map (fun x => c * x)).map
      (fun x => x / (w.map (fun y => c * y)).sum) = w.map (fun x => x / w.sum) := by
    rw [sum_map_mul_left, List.map_map]
    have : ((fun x => x / (c * w.sum)) ∘ fun x => c * x) = fun x => x / w.sum := by
      funext x
      exact mul_div_mul_left x w.sum hc'
    rw [this]
  rw [hmaps]

/-- Witness for C2 at a concrete input. -/
theorem fuseWeighted_scale_invariant_witness :
    fuseWeighted [[(1 : ℚ), 0], [0, 1]]
        (some ([(3 : ℚ)/4, 1/4].map (fun x => 2 * x))) =
      fuseWeighted [[(1 : ℚ), 0], [0, 1]] (some [(3 : ℚ)/4, 1/4]) ∧
    fuseWeighted [[(1 : ℚ), 0], [0, 1]] none = fuseAverage [[(1 : ℚ), 0], [0, 1]] :=
  fuseWeighted_scale_invariant [[(1 : ℚ), 0], [0, 1]] [(3 : ℚ)/4, 1/4] 2 (by norm_num)

/-- Arg-max class of a score vector: the first index attaining the maximal
score (numpy `argmax` semantics). -/
def argmax (v : RawScores) : Nat :=
  (List.range v.length).foldl (fun best i => if v.getD best 0 < v.getD i 0 then i else best) 0

/-- Number of members whose arg-max vote goes to class `c`. -/
def votes (scores : List RawScores) (c : Nat) : Nat :=
  (scores.map argmax).count c

/-- Summed confidence that the voters for class `c` assign to `c`. -/
def sumConf (scores : List RawScores) (c : Nat) : ℚ :=
  ((scores.filter (fun v => argmax v == c)).map (fun v => v.getD c 0)).sum

/-- Strict comparison of candidate classes: more votes first, then higher
summed confidence among equal vote counts. -/
def keyLT (s : List RawScores) (a b : Nat) : Prop :=
  votes s a < votes s b ∨ (votes s a = votes s b ∧ sumConf s a < sumConf s b)

instance keyLT.decRel (s : List RawScores) : DecidableRel (keyLT s) := fun a b => by
  unfold keyLT
  infer_instance

/-- Non-strict counterpart of `keyLT`. -/
def keyLE (s : List RawScores) (a b : Nat) : Prop :=
  votes s a < votes s b ∨ (votes s a = votes s b ∧ sumConf s a ≤ sumConf s b)

lemma keyLE_refl (s : List RawScores) (a : Nat) : keyLE s a a :=
  Or.inr ⟨rfl, le_refl _⟩

lemma keyLT_keyLE (s : List RawScores) (a b : Nat) (h : keyLT s a b) : keyLE s a b := by
  rcases h with h | ⟨h1, h2⟩
  · exact Or.inl h
  · exact Or.inr ⟨h1, le_of_lt h2⟩

lemma keyLE_of_not_keyLT (s : List RawScores) (a b : Nat) (h : ¬ keyLT s a b) :
    keyLE s b a := by
  rcases lt_trichotomy (votes s a) (votes s b) with hv | hv | hv
  · exact absurd (Or.inl hv) h
  · rcases le_or_lt (sumConf s b) (sumConf s a) with hs | hs
    · exact Or.inr ⟨hv.symm, hs⟩
    · exact absurd (Or.inr ⟨hv, hs⟩) h
  · exact Or.inl hv

lemma keyLE_trans (s : List RawScores) (a b c : Nat)
    (hab : keyLE s a b) (hbc : keyLE s b c) : keyLE s a c := by
  rcases hab with h1 | ⟨h1, h1'⟩ <;> rcases hbc with h2 | ⟨h2, h2'⟩
  · exact Or.inl (lt_trans h1 h2)
  · exact Or.inl (h2 ▸ h1)
  · exact Or.inl (h1 ▸ h2)
  · exact Or.inr ⟨h1.trans h2, le_trans h1' h2'⟩

/-- One step of the winner selection fold: keep the better candidate. -/
def chooseBetter (s : List RawScores) (best c : Nat) : Nat :=
  if keyLT s best c then c else best

/-- Modelled from the spec: the winning class of the `voting` strategy
(§4.3; documented as `final_class = mode(votes)` with the spec's tie-break):
majority vote, ties broken by the highest summed confidence across the tied
class's voters. -/
def votingWinner (scores : List RawScores) : Nat :=
  match scores.map argmax with
  | [] => 0
  | c :: cs => cs.foldl (chooseBetter scores) c

lemma foldl_chooseBetter_mem (s : List RawScores) (l : List Nat) (b : Nat) :
    l.foldl (chooseBetter s) b ∈ b :: l := by
  induction l generalizing b with
  | nil => simp
  | cons c cs ih =>
      rw [List.foldl_cons]
      by_cases hbc : keyLT s b c
      · have hstep : chooseBetter s b c = c := by
          unfold chooseBetter
          rw [if_pos hbc]
        rw [hstep]
        rcases List.mem_cons.mp (ih c) with h1 | h2
        · simp [h1]
        · simp [h2]
      · have hstep : chooseBetter s b c = b := by
          unfold chooseBetter
          rw [if_neg hbc]
        rw [hstep]
        rcases List.mem_cons.mp (ih b) with h1 | h2
        · simp [h1]
        · simp [h2]

lemma foldl_chooseBetter_le (s : List RawScores) (l : List Nat) (b : Nat) :
    ∀ x ∈ b :: l, keyLE s x (l.foldl (chooseBetter s) b) := by
  induction l generalizing b with
  | nil =>
      intro x hx
      rw [List.mem_singleton] at hx
      subst hx
      exact keyLE_refl s x
  | cons c cs ih =>
      intro x hx
      rw [List.foldl_cons]
      have hb : keyLE s b (chooseBetter s b c) := by
        unfold chooseBetter
        split
        · exact keyLT_keyLE s b c (by assumption)
        · exact keyLE_refl s b
      have hc : keyLE s c (chooseBetter s b c) := by
        unfold chooseBetter
        split
        · exact keyLE_refl s c
        · exact keyLE_of_not_keyLT s b c (by assumption)
      have hhead : keyLE s (chooseBetter s b c)
          (cs.foldl (chooseBetter s) (chooseBetter s b c)) :=
        ih (chooseBetter s b c) _ (List.mem_cons_self _ _)
      rcases List.mem_cons.mp hx with rfl | hx2
      · exact keyLE_trans s _ _ _ hb hhead
      rcases List.mem_cons.mp hx2 with rfl | hx3
      · exact keyLE_trans s _ _ _ hc hhead
      · exact ih (chooseBetter s b c) x (List.mem_cons_of_mem _ hx3)

/-- C1: the class selected by the `voting` strategy received at least one
arg-max vote, holds a maximal vote count, and among classes tied on vote
count it has the highest summed confidence across its voters. -/
theorem votingWinner_sound (scores : List RawScores) (h : scores ≠ []) :
    1 ≤ votes scores (votingWinner scores) ∧
    (∀ c, votes scores c ≤ votes scores (votingWinner scores)) ∧
    (∀ c, votes scores c = votes scores (votingWinner scores) →
      sumConf scores c ≤ sumConf scores (votingWinner scores)) := by
  obtain ⟨v, vs, rfl⟩ : ∃ v vs, scores = v :: vs := by
    cases scores with
    | nil => exact absurd rfl h
    | cons v vs => exact ⟨v, vs, rfl⟩
  have hW : votingWinner (v :: vs) =
      (vs.map argmax).foldl (chooseBetter (v :: vs)) (argmax v) := rfl
  have hmem : votingWinner (v :: vs) ∈ argmax v :: vs.map argmax := by
    rw [hW]
    exact foldl_chooseBetter_mem (v :: vs) (vs.map argmax) (argmax v)
  have hle : ∀ x ∈ argmax v :: vs.map argmax,
      keyLE (v :: vs) x (votingWinner (v :: vs)) := by
    rw [hW]
    exact foldl_chooseBetter_le (v :: vs) (vs.map argmax) (argmax v)
  have hmap : (v :: vs).map argmax = argmax v :: vs.map argmax := rfl
  have hpos : 1 ≤ votes (v :: vs) (votingWinner (v :: vs)) := by
    by_contra hcon
    have h0 : votes (v :: vs) (votingWinner (v :: vs)) = 0 := by omega
    have : votingWinner (v :: vs) ∉ (v :: vs).map argmax :=
      List.count_eq_zero.mp h0
    rw [hmap] at this
    exact this hmem
  refine ⟨hpos, ?_, ?_⟩
  · intro c
    by_cases hc : c ∈ (v :: vs).map argmax
    · rcases hle c (hmap ▸ hc) with hlt | ⟨heq, _⟩
      · exact le_of_lt hlt
      · exact le_of_eq heq
    · have h0 : votes (v :: vs) c = 0 := List.count_eq_zero.mpr hc
      omega
  · intro c hc
    by_cases hcm : c ∈ (v :: vs).map argmax
    · rcases hle c (hmap ▸ hcm) with hlt | ⟨_, hconf⟩
      · omega
      · exact hconf
    · have h0 : votes (v :: vs) c = 0 := List.count_eq_zero.mpr hcm
      omega

/-- Witness for C1: the spec's §8 voting scenario (three members, arg-max
votes A, B, C; winner decided by summed confidence). -/
theorem votingWinner_sound_witness :
    [[(9 : ℚ)/10, 1/20, 1/20], [1/10, 8/10, 1/10], [3/10, 3/10, 4/10]] ≠
      ([] : List RawScores) ∧
    (1 ≤ votes [[(9 : ℚ)/10, 1/20, 1/20], [1/10, 8/10, 1/10], [3/10, 3/10, 4/10]]
        (votingWinner [[(9 : ℚ)/10, 1/20, 1/20], [1/10, 8/10, 1/10], [3/10, 3/10, 4/10]]) ∧
      (∀ c, votes [[(9 : ℚ)/10, 1/20, 1/20], [1/10, 8/10, 1/10], [3/10, 3/10, 4/10]] c ≤
        votes [[(9 : ℚ)/10, 1/20, 1/20], [1/10, 8/10, 1/10], [3/10, 3/10, 4/10]]
          (votingWinner [[(9 : ℚ)/10, 1/20, 1/20], [1/10, 8/10, 1/10], [3/10, 3/10, 4/10]])) ∧
      (∀ c, votes [[(9 : ℚ)/10, 1/20, 1/20], [1/10, 8/10, 1/10], [3/10, 3/10, 4/10]] c =
        votes [[(9 : ℚ)/10, 1/20, 1/20], [1/10, 8/10, 1/10], [3/10, 3/10, 4/10]]
          (votingWinner [[(9 : ℚ)/10, 1/20, 1/20], [1/10, 8/10, 1/10], [3/10, 3/10, 4/10]]) →
        sumConf [[(9 : ℚ)/10, 1/20, 1/20], [1/10, 8/10, 1/10], [3/10, 3/10, 4/10]] c ≤
          sumConf [[(9 : ℚ)/10, 1/20, 1/20], [1/10, 8/10, 1/10], [3/10, 3/10, 4/10]]
            (votingWinner [[(9 : ℚ)/10, 1/20, 1/20], [1/10, 8/10, 1/10], [3/10, 3/10, 4/10]]))) :=
  ⟨by simp, votingWinner_sound
    [[(9 : ℚ)/10, 1/20, 1/20], [1/10, 8/10, 1/10], [3/10, 3/10, 4/10]] (by simp)⟩

/-- Modelled from the spec: the `voting` strategy's returned score vector
(§4.3): the winning class's probability is the mean confidence of its
voters and the remaining classes share the remainder proportionally to
their average scores. -/
def fuseVoting (scores : List RawScores) : RawScores :=
  let w := votingWinner scores
  let m := sumConf scores w / (votes scores w : ℚ)
  let avg := fuseAverage scores
  let others := avg.sum - avg.getD w 0
  avg.enum.map (fun p => if p.1 = w then m else (1 - m) * p.2 / others)

/-- The three fusion strategies of the ensemble configuration
(`ensemble_strategy`: average, weighted, voting). -/
inductive FusionStrategy
  | average
  | weighted
  | voting

/-- Modelled from the spec: Fusion Engine dispatch (§4.3,
`fuse(scores, strategy, weights?)`). -/
def fuse (strategy : FusionStrategy) (scores : List RawScores)
    (weights : Option (List ℚ)) : RawScores :=
  match strategy with
  | .average => fuseAverage scores
  | .weighted => fuseWeighted scores weights
  | .voting => fuseVoting scores

/-- Modelled from the spec: §4.4 `invoked|escalated → fused` — the Fusion
Engine is applied only when more than one model contributed; a single
model's scores pass through unchanged. -/
def fusedScores (strategy : FusionStrategy) (scores : List RawScores)
    (weights : Option (List ℚ)) : RawScores :=
  match scores with
  | [v] => v
  | _ => fuse strategy scores weights

/-- Ranking order on (class id, confidence) entries: descending by
confidence, ties broken by ascending class id. -/
def rankRel (a b : Nat × ℚ) : Prop :=
  b.2 < a.2 ∨ (a.2 = b.2 ∧ a.1 ≤ b.1)

instance rankRel.decRel : DecidableRel rankRel := fun a b => by
  unfold rankRel
  infer_instance

instance rankRel.total : IsTotal (Nat × ℚ) rankRel := by
  constructor
  intro a b
  rcases lt_trichotomy a.2 b.2 with h | h | h
  · exact Or.inr (Or.inl h)
  · rcases le_total a.1 b.1 with h1 | h1
    · exact Or.inl (Or.inr ⟨h, h1⟩)
    · exact Or.inr (Or.inr ⟨h.symm, h1⟩)
  · exact Or.inl (Or.inl h)

instance rankRel.trans : IsTrans (Nat × ℚ) rankRel := by
  constructor
  intro a b c hab hbc
  rcases hab with h1 | ⟨h1, h1'⟩ <;> rcases hbc with h2 | ⟨h2, h2'⟩
  · exact Or.inl (lt_trans h2 h1)
  · exact Or.inl (h2 ▸ h1)
  · exact Or.inl (h1 ▸ h2)
  · exact Or.inr ⟨h1.trans h2, le_trans h1' h2'⟩

instance rankRel.antisymm : IsAntisymm (Nat × ℚ) rankRel := by
  constructor
  intro a b hab hba
  obtain ⟨a1, a2⟩ := a
  obtain ⟨b1, b2⟩ := b
  rcases hab with h1 | ⟨h1, h1'⟩ <;> rcases hba with h2 | ⟨h2, h2'⟩
  · exact absurd h1 (lt_asymm h2)
  · exact absurd h1 (h2 ▸ lt_irrefl _)
  · exact absurd h2 (h1 ▸ lt_irrefl _)
  · simp only [Prod.mk.injEq]
    exact ⟨le_antisymm h1' h2', h1⟩

/-- Ranked prediction list over a fused score vector: (class id,
confidence) entries sorted descending by confidence, ties broken by
ascending class id. -/
def rankPredictions (probs : RawScores) : List (Nat × ℚ) :=
  List.insertionSort rankRel probs.enum

/-- The ranked part of a PredictionOutcome (§3): ranked list plus the top
entry and the model name actually used. -/
structure PredictionOutcome where
  predictions : List (Nat × ℚ)
  top : Option (Nat × ℚ)
  modelName : String

/-- Modelled from the spec: the deterministic core of `predictSync`
(§4.4/§4.5) — fuse the contributing members' scores, then rank the fused
vector. -/
def predictOutcome (strategy : FusionStrategy) (scores : List RawScores)
    (weights : Option (List ℚ)) (modelName : String) : PredictionOutcome :=
  let ranked := rankPredictions (fusedScores strategy scores weights)
  { predictions := ranked, top := ranked.head?, modelName := modelName }

/-- C6: the outcome's prediction list is sorted descending by confidence
with ties broken by ascending class id, and it is a permutation of the
enumerated *fused* vector — the ranking is computed after fusion, not over
any individual member's scores. -/
theorem predictions_sorted_after_fusion (strategy : FusionStrategy)
    (scores : List RawScores) (weights : Option (List ℚ)) (name : String) :
    List.Sorted rankRel (predictOutcome strategy scores weights name).predictions ∧
    (predictOutcome strategy scores weights name).predictions.Perm
      ((fusedScores strategy scores weights).enum) :=
  ⟨List.sorted_insertionSort rankRel _, List.perm_insertionSort rankRel _⟩

/-- C4: `predictSync` determinism including tie-break resolution — any
list that is sorted by the ranking order and is a permutation of the
enumerated fused vector is equal to the outcome's prediction list, so the
full ranking and the top-1 entry are uniquely determined by the inputs. -/
theorem predictSync_deterministic (strategy : FusionStrategy)
    (scores : List RawScores) (weights : Option (List ℚ)) (name : String)
    (l : List (Nat × ℚ))
    (hs : List.Sorted rankRel l)
    (hp : l.Perm ((fusedScores strategy scores weights).enum)) :
    l = (predictOutcome strategy scores weights name).predictions ∧
    l.head? = (predictOutcome strategy scores weights name).top := by
  have hperm : l.Perm (predictOutcome strategy scores weights name).predictions :=
    hp.trans (List.perm_insertionSort rankRel _).symm
  have heq : l = (predictOutcome strategy scores weights name).predictions :=
    List.eq_of_perm_of_sorted hperm hs (List.sorted_insertionSort rankRel _)
  exact ⟨heq, by rw [heq]; rfl⟩

/-- Witness for C4 at a concrete input. -/
theorem predictSync_deterministic_witness :
    List.Sorted rankRel [((1 : Nat), (3 : ℚ)), (0, 1)] ∧
    List.Perm [((1 : Nat), (3 : ℚ)), (0, 1)]
      ((fusedScores .average [[(1 : ℚ), 3]] none).enum) ∧
    ([((1 : Nat), (3 : ℚ)), (0, 1)] =
        (predictOutcome .average [[(1 : ℚ), 3]] none "m").predictions ∧
      [((1 : Nat), (3 : ℚ)), (0, 1)].head? =
        (predictOutcome .average [[(1 : ℚ), 3]] none "m").top) :=
  ⟨by decide, by decide,
    predictSync_deterministic .average [[(1 : ℚ), 3]] none "m"
      [((1 : Nat), (3 : ℚ)), (0, 1)] (by decide) (by decide)⟩

/-- Routing hint carried by a PredictionRequest (§3). -/
inductive RoutingHint
  | auto
  | forceStudent
  | forceEnsemble
deriving DecidableEq

/-- Per-request Router states (§4.4). -/
inductive RouterState
  | received
  | modelResolved
  | invoked
  | escalated
  | fused
  | completed
deriving DecidableEq

/-- Modelled from the spec: the escalation condition of §4.4 — escalation
to the teacher happens only for the `auto` routing hint, when
`use_teacher` is enabled and the student's top confidence is below the
escalation threshold. -/
def escalates (hint : RoutingHint) (useTeacher : Bool) (conf thr : ℚ) : Bool :=
  match hint with
  | .auto => useTeacher && decide (conf < thr)
  | .forceStudent => false
  | .forceEnsemble => false

/-- Modelled from the spec: the Router's per-request state machine
transitions (§4.4, `received → model-resolved → invoked → (optional)
escalated → fused → completed`). -/
def nextState (hint : RoutingHint) (useTeacher : Bool) (conf thr : ℚ) :
    RouterState → RouterState
  | .received => .modelResolved
  | .modelResolved => .invoked
  | .invoked => if escalates hint useTeacher conf thr then .escalated else .fused
  | .escalated => .fused
  | .fused => .completed
  | .completed => .completed

/-- The Router state after `n` transition steps from `received`. -/
def routerRun (hint : RoutingHint) (useTeacher : Bool) (conf thr : ℚ) :
    Nat → RouterState
  | 0 => .received
  | n + 1 => nextState hint useTeacher conf thr (routerRun hint useTeacher conf thr n)

/-- C5: a `force-student` request never passes through the `escalated`
state — the teacher is never invoked — even when the student's confidence
is below the escalation threshold, and the request still completes. -/
theorem forceStudent_never_escalates (useTeacher : Bool) (conf thr : ℚ)
    (h : conf < thr) :
    (∀ n, routerRun .forceStudent useTeacher conf thr n ≠ .escalated) ∧
    routerRun .forceStudent useTeacher conf thr 5 = .completed := by
  constructor
  · intro n
    induction n with
    | zero => simp [routerRun]
    | succ k ih =>
        show nextState .forceStudent useTeacher conf thr
          (routerRun .forceStudent useTeacher conf thr k) ≠ .escalated
        cases hst : routerRun .forceStudent useTeacher conf thr k <;>
          simp [nextState, escalates]
  · show nextState _ _ _ _ (nextState _ _ _ _ (nextState _ _ _ _
      (nextState _ _ _ _ (nextState _ _ _ _ .received)))) = .completed
    simp [nextState, escalates]

/-- Witness for C5 at a concrete input. -/
theorem forceStudent_never_escalates_witness :
    ((3 : ℚ) < 5) ∧
    ((∀ n, routerRun .forceStudent true 3 5 n ≠ .escalated) ∧
      routerRun .forceStudent true 3 5 5 = .completed) :=
  ⟨by norm_num, forceStudent_never_escalates true 3 5 (by norm_num)⟩

/-- One entry of the `predictions` array of the predict response
(`PredictionResult` in the front-end prediction API wrapper). -/
structure PredictionEntry where
  className : String
  confidence : ℚ
  class_id : Nat

/-- `ensemble_info` block of the predict response. -/
structure EnsembleInfo where
  num_models : Nat
  strategy : String

/-- `distillation_info` block of the predict response. -/
structure DistillationInfo where
  student_model : Bool
  teacher_models : Nat
  temperature : ℚ

/-- The predict response body, mirroring the front-end `PredictionResult`
interface: exactly the fields success, predictions, top_prediction,
processing_time, model_name, plus optional ensemble_info and
distillation_info. -/
structure PredictionResult where
  success : Bool
  predictions : List PredictionEntry
  top_prediction : Option PredictionEntry
  processing_time : ℚ
  model_name : String
  ensemble_info : Option EnsembleInfo
  distillation_info : Option DistillationInfo

/-- How a request was ultimately served: a single model, an ensemble
fusion, or a distillation student (with the number of teachers actually
invoked). -/
inductive ServedKind
  | single
  | ensemble (numModels : Nat) (strategy : String)
  | distillation (teachersInvoked : Nat) (temperature : ℚ)

/-- Modelled from the spec: the HTTP boundary's successful predict
response builder (§6; the FastAPI handler itself is not in the repository
snapshot, only the documented response example): `ensemble_info` is
attached exactly when fusion occurred and `distillation_info` exactly when
distillation occurred. -/
def buildPredictResponse (kind : ServedKind) (preds : List PredictionEntry)
    (time : ℚ) (name : String) : PredictionResult where
  success := true
  predictions := preds
  top_prediction := preds.head?
  processing_time := time
  model_name := name
  ensemble_info :=
    match kind with
    | .ensemble n s => some ⟨n, s⟩
    | _ => none
  distillation_info :=
    match kind with
    | .distillation t temp => some ⟨true, t, temp⟩
    | _ => none

/-- C7: a successful predict response carries `success = true`, its
`ensemble_info` field is present exactly when the request was served by an
ensemble fusion, and its `distillation_info` field exactly when it was
served by distillation; the remaining fields are exactly those of the
`PredictionResult` shape. -/
theorem buildPredictResponse_shape (kind : ServedKind)
    (preds : List PredictionEntry) (time : ℚ) (name : String) :
    (buildPredictResponse kind preds time name).success = true ∧
    ((buildPredictResponse kind preds time name).ensemble_info.isSome ↔
      ∃ n s, kind = .ensemble n s) ∧
    ((buildPredictResponse kind preds time name).distillation_info.isSome ↔
      ∃ t temp, kind = .distillation t temp) ∧
    (buildPredictResponse kind preds time name).predictions = preds ∧
    (buildPredictResponse kind preds time name).top_prediction = preds.head? ∧
    (buildPredictResponse kind preds time name).processing_time = time ∧
    (buildPredictResponse kind preds time name).model_name = name := by
  refine ⟨rfl, ?_, ?_, rfl, rfl, rfl, rfl⟩
  · cases kind <;> simp [buildPredictResponse]
  · cases kind <;> simp [buildPredictResponse]

/-- The multipart form fields built by the front-end `directPrediction`
wrapper. -/
structure DirectPredictionForm where
  file : String
  model_name : String
  confidence_threshold : ℚ

/-- The front-end prediction API wrapper `directPrediction`: appends
`file`, `model_name` and `confidence_threshold` to the form data, with
parameter defaults `"default"` and `0.5`. -/
def directPrediction (file : String) (modelName : String := "default")
    (confidenceThreshold : ℚ := 1/2) : DirectPredictionForm :=
  ⟨file, modelName, confidenceThreshold⟩

/-- Clamp into the unit interval, the effect of the `min=0` / `max=1`
props on the detection page's threshold controls. -/
def clampUnit (v : ℚ) : ℚ := max 0 (min 1 v)

/-- A user interaction with one of the two threshold controls on the
detection page. -/
inductive ThresholdEvent
  | slider (v : ℚ)
  | inputNumber (v : Option ℚ)

/-- Threshold state updates of the detection page: the slider sets the
clamped value directly; the InputNumber handler is
`(value) => setConfidenceThreshold(value || 0.5)`, so a null (or falsy 0)
value becomes 0.5. -/
def applyThresholdEvent : ThresholdEvent → ℚ
  | .slider v => clampUnit v
  | .inputNumber none => 1/2
  | .inputNumber (some v) => if v = 0 then 1/2 else clampUnit v

/-- The detection page's `confidenceThreshold` state after a sequence of
control interactions, starting from the initial `useState(0.5)`. -/
def thresholdAfter (events : List ThresholdEvent) : ℚ :=
  events.foldl (fun _ e => applyThresholdEvent e) (1/2)

lemma applyThresholdEvent_mem_unit (e : ThresholdEvent) :
    0 ≤ applyThresholdEvent e ∧ applyThresholdEvent e ≤ 1 := by
  have hclamp : ∀ v : ℚ, 0 ≤ clampUnit v ∧ clampUnit v ≤ 1 := by
    intro v
    constructor
    · exact le_max_left 0 _
    · exact max_le (by norm_num) (min_le_left 1 v)
  cases e with
  | slider v => exact hclamp v
  | inputNumber v =>
      cases v with
      | none => constructor <;> norm_num [applyThresholdEvent]
      | some x =>
          by_cases hx : x = 0

          · simp only [applyThresholdEvent, if_pos hx]
            constructor <;> norm_num
          · simp only [applyThresholdEvent, if_neg hx]
            exact hclamp x

/-- C8: a predict request built with omitted options carries
`model_name = "default"` and `confidence_threshold = 0.5`, and the
detection page's threshold state always lies in [0, 1]. -/
theorem predict_request_defaults (file : String) (events : List ThresholdEvent) :
    (directPrediction file).model_name = "default" ∧
    (directPrediction file).confidence_threshold = 1/2 ∧
    0 ≤ thresholdAfter events ∧ thresholdAfter events ≤ 1 := by
  refine ⟨rfl, rfl, ?_⟩
  unfold thresholdAfter
  induction events with
  | nil => constructor <;> norm_num
  | cons e rest ih =>
      rw [List.foldl_cons]
      have hmem := applyThresholdEvent_mem_unit e
      clear ih
      induction rest generalizing e with
      | nil => exact hmem
      | cons e' rest' ih' =>
          rw [List.foldl_cons]
          exact ih' e' (applyThresholdEvent_mem_unit e')

/-- State of the detection page relevant to `handleDetect`. -/
structure DetectionState where
  detectionResult : Option PredictionResult
  isDetecting : Bool

/-- Outcome of the awaited `directPrediction` call: a thrown error
(network/HTTP failure) or a parsed response body. -/
inductive ApiOutcome
  | failure
  | response (r : PredictionResult)

/-- The detection page's `handleDetect` handler: requires an image; on a
response with `success` and a non-null `top_prediction`, stores the
response as the detection result; any other response is turned into a
thrown error (`检测结果无效`), which the catch block surfaces without
touching the stored result.  The returned Bool records whether an error
message was shown. -/
def handleDetect (s : DetectionState) (hasImage : Bool) (out : ApiOutcome) :
    DetectionState × Bool :=
  if hasImage = false then (s, true)
  else
    match out with
    | .failure => ({ s with isDetecting := false }, true)
    | .response r =>
        if r.success && r.top_prediction.isSome then
          ({ detectionResult := some r, isDetecting := false }, false)
        else
          ({ s with isDetecting := false }, true)

/-- C9: `handleDetect` stores a response as the displayed detection result
exactly when the response has `success = true` and a non-null
`top_prediction`; any other response leaves the stored result unchanged
(so a null result stays null) and surfaces an error instead. -/
theorem handleDetect_stores_only_valid (s : DetectionState) (r : PredictionResult) :
    ((handleDetect s true (.response r)).1.detectionResult = some r ∧
        (handleDetect s true (.response r)).2 = false ↔
      r.success = true ∧ r.top_prediction.isSome = true) ∧
    (¬(r.success = true ∧ r.top_prediction.isSome = true) →
      (handleDetect s true (.response r)).1.detectionResult = s.detectionResult ∧
        (handleDetect s true (.response r)).2 = true) ∧
    (s.detectionResult = none → ¬(r.success = true ∧ r.top_prediction.isSome = true) →
      (handleDetect s true (.response r)).1.detectionResult = none) := by
  by_cases hc : (r.success && r.top_prediction.isSome) = true
  · rw [Bool.and_eq_true] at hc
    refine ⟨?_, ?_, ?_⟩
    · simp [handleDetect, hc.1, hc.2]
    · intro hcon
      exact absurd hc hcon
    · intro _ hcon
      exact absurd hc hcon
  · have hc' : ¬(r.success = true ∧ r.top_prediction.isSome = true) := by
      rw [← Bool.and_eq_true]
      exact hc
    have hstep : handleDetect s true (.response r) =
        ({ s with isDetecting := false }, true) := by
      simp only [handleDetect]
      rw [if_neg (by simp), if_neg hc]
    refine ⟨?_, fun _ => ?_, fun hnone _ => ?_⟩
    · rw [hstep]
      constructor
      · rintro ⟨-, hfalse⟩
        exact absurd hfalse (by simp)
      · intro h
        exact absurd h hc'
    · rw [hstep]
      exact ⟨rfl, rfl⟩
    · rw [hstep]
      exact hnone

/-- Witness for C9 at a concrete input (a success=false response against
an empty page state). -/
theorem handleDetect_stores_only_valid_witness :
    ((handleDetect ⟨none, true⟩ true
          (.response ⟨false, [], none, 0, "m", none, none⟩)).1.detectionResult =
        some ⟨false, [], none, 0, "m", none, none⟩ ∧
      (handleDetect ⟨none, true⟩ true
          (.response ⟨false, [], none, 0, "m", none, none⟩)).2 = false ↔
      (false = true ∧ (Option.isSome (none : Option PredictionEntry)) = true)) ∧
    (¬(false = true ∧ (Option.isSome (none : Option PredictionEntry)) = true) →
      (handleDetect ⟨none, true⟩ true
          (.response ⟨false, [], none, 0, "m", none, none⟩)).1.detectionResult =
        (⟨none, true⟩ : DetectionState).detectionResult ∧
      (handleDetect ⟨none, true⟩ true
          (.response ⟨false, [], none, 0, "m", none, none⟩)).2 = true) ∧
    ((⟨none, true⟩ : DetectionState).detectionResult = none →
      ¬(false = true ∧ (Option.isSome (none : Option PredictionEntry)) = true) →
      (handleDetect ⟨none, true⟩ true
          (.response ⟨false, [], none, 0, "m", none, none⟩)).1.detectionResult = none) :=
  handleDetect_stores_only_valid ⟨none, true⟩ ⟨false, [], none, 0, "m", none, none⟩

/-- An HTTP response as seen by the shared API client's response
interceptor: a success payload or an error status. -/
inductive HttpResult
  | ok (data : String)
  | err (status : Nat)

/-- Final outcome of one logical request through the API client: resolved
data, a propagated HTTP error, or a propagated token-refresh error. -/
inductive FinalOutcome
  | success (data : String)
  | rejected (status : Nat)
  | rejectedRefresh
deriving DecidableEq

/-- The shared API client's response interceptor, driven over the server's
responses (`responses n` is the reply to the n-th send of this request).
On a 401 with the per-request `_retry` flag unset, the flag is set and a
token refresh is attempted: success re-dispatches the original request
once, failure logs the user out and propagates the refresh error.  `fuel`
bounds the recursion; the result records (outcome, total sends, whether
logout happened). -/
def drive (refreshOk : Bool) (responses : Nat → HttpResult) :
    Nat → Nat → Bool → Option (FinalOutcome × Nat × Bool)
  | 0, _, _ => none
  | fuel + 1, n, retryFlag =>
    match responses n with
    | .ok d => some (.success d, n + 1, false)
    | .err s =>
        if (s == 401) && !retryFlag then
          if refreshOk then drive refreshOk responses fuel (n + 1) true
          else some (.rejectedRefresh, n + 1, true)
        else some (.rejected s, n + 1, false)

lemma drive_flagTrue (refreshOk : Bool) (responses : Nat → HttpResult)
    (fuel n : Nat) :
    drive refreshOk responses (fuel + 1) n true =
      some (match responses n with
            | .ok d => (.success d, n + 1, false)
            | .err s => (.rejected s, n + 1, false)) := by
  cases hr : responses n with
  | ok d => simp [drive, hr]
  | err s => simp [drive, hr]

/-- C10: a 401 response triggers at most one retry of the request (total
sends never exceed 2, guarded by the `_retry` flag), and when the token
refresh fails the client logs out and propagates the refresh error after a
single send instead of retrying. -/
theorem apiClient_401_single_retry (refreshOk : Bool)
    (responses : Nat → HttpResult) (fuel : Nat) (h : 2 ≤ fuel) :
    ∃ out sends loggedOut,
      drive refreshOk responses fuel 0 false = some (out, sends, loggedOut) ∧
      sends ≤ 2 ∧
      (responses 0 = .err 401 → refreshOk = false →
        out = .rejectedRefresh ∧ sends = 1 ∧ loggedOut = true) := by
  obtain ⟨k, rfl⟩ : ∃ k, fuel = k + 2 := ⟨fuel - 2, by omega⟩
  cases hr : responses 0 with
  | ok d =>
      refine ⟨.success d, 1, false, ?_, by norm_num, ?_⟩
      · simp [drive, hr]
      · intro hcon
        exact absurd hcon (by simp)
  | err s =>
      by_cases hs : s = 401
      · subst hs
        cases hok : refreshOk with
        | true =>
            refine ⟨?_, 2, false, ?_, le_refl 2, ?_⟩
            · exact match responses 1 with
                | .ok d => .success d
                | .err s2 => .rejected s2
            · show drive true responses (k + 1 + 1) 0 false = _
              have hstep : drive true responses (k + 1 + 1) 0 false =
                  drive true responses (k + 1) 1 true := by
                simp [drive, hr]
              rw [hstep, drive_flagTrue]
              cases responses 1 <;> rfl
            · intro _ hcon
              exact absurd hcon (by simp)
        | false =>
            refine ⟨.rejectedRefresh, 1, true, ?_, by norm_num, ?_⟩
            · simp [drive, hr]
            · intro _ _
              exact ⟨rfl, rfl, rfl⟩
      · refine ⟨.rejected s, 1, false, ?_, by norm_num, ?_⟩
        · simp [drive, hr, hs]
        · intro hcon
          injection hcon with h401
          exact absurd h401 hs

/-- Witness for C10: a server that always answers 401 and a failing
refresh. -/
theorem apiClient_401_single_retry_witness :
    (2 ≤ 2) ∧
    ∃ out sends loggedOut,
      drive false (fun _ => .err 401) 2 0 false = some (out, sends, loggedOut) ∧
      sends ≤ 2 ∧
      ((fun _ => HttpResult.err 401) 0 = .err 401 → false = false →
        out = .rejectedRefresh ∧ sends = 1 ∧ loggedOut = true) :=
  ⟨by norm_num, apiClient_401_single_retry false (fun _ => .err 401) 2 (by norm_num)⟩

end PlantCloud
